import Mathlib

/-!
Verification of the flush / rotation / double-buffer pipeline of the
can-i-swim firmware (src/firmware/main/firmware.c, the rotated variant:
the one whose flush callback re-tiles the rendered block through a
scratch line buffer before writing it to the panel).

The embedding below translates the C source into Lean:

* panel geometry constants are the C macros (LCD_H_RES = 280,
  LCD_V_RES = 456, LVGL_WIDTH = 456);
* a dirty rectangle (lv_area_t) is a record of four coordinates; the
  coordinates that reach this code are non-negative int32 values, so we
  model them as Nat and state 32-bit range hypotheses where the C code
  performs 32-bit mask arithmetic;
* the rounder callback, the band loop of flush_cb, the scratch-tile fill
  loop, the draw-bitmap calls and the surrounding side effects (log,
  byte swap, allocation, free, flush-ready) are each translated into an
  executable definition; the observable behaviour of one flush call is a
  list of events in program order;
* the two library routines the firmware calls but does not define
  (the RGB565 byte swap and LVGL's double-buffer scheduling) are
  modelled from the spec, and are marked as such in their doc comments.
-/

namespace CanISwim

/-- Panel native horizontal resolution, C macro `LCD_H_RES` (280).
In the rotated configuration this is also the logical display height
(the display is created as `lv_display_create(LVGL_WIDTH, LCD_H_RES)`),
which is what the spec calls the panel height. -/
def LCD_H_RES : Nat := 280

/-- Panel native vertical resolution, C macro `LCD_V_RES` (456). -/
def LCD_V_RES : Nat := 456

/-- Logical display width, C macro `LVGL_WIDTH` (456). -/
def LVGL_WIDTH : Nat := 456

/-- Band height, `const int rows = 8` in `flush_cb`. -/
def rows : Nat := 8

/-- Row stride of the logical pixel block, `const int cols = LVGL_WIDTH`
in `flush_cb`. -/
def cols : Nat := LVGL_WIDTH

/-- A dirty rectangle (`lv_area_t`): inclusive integer bounds.  The
areas handed to the rounder and flush callbacks carry non-negative
coordinates inside the panel extents, so the fields are Nat. -/
structure Area where
  x1 : Nat
  y1 : Nat
  x2 : Nat
  y2 : Nat
deriving DecidableEq

/-- One coordinate of the rounder callback: `v &= ~0x7U` in C.  On a
non-negative 32-bit value, `~0x7U` is the constant 0xFFFFFFF8, and the
`&=` is a Nat bitwise and with that constant. -/
def alignDown8 (x : Nat) : Nat := x &&& 0xFFFFFFF8

/-- `lvgl_display_rounder_callback`: the origin coordinates are masked
down (`x1 &= ~0x7U`, `y1 &= ~0x7U`) and the far-edge coordinates are
masked down and then moved up by 7 (`x2 = (x2 & ~0x7U) + 7`, same for
`y2`). -/
def quantizeArea (a : Area) : Area :=
  { x1 := alignDown8 a.x1
    y1 := alignDown8 a.y1
    x2 := alignDown8 a.x2 + 7
    y2 := alignDown8 a.y2 + 7 }

/-- Band start offsets of the rotated flush loop
`for (uint16_t n = 0; n < area->y2 - area->y1; n += rows)`:
the iterations are exactly n = 8*k for 8*k < d, where d = y2 - y1
(when y2 < y1 the signed C comparison fails at once and the Nat
truncated difference is 0, so both give no iterations).  There are
ceil(d/8) = (d+7)/8 of them, in increasing order. -/
def bandStarts (d : Nat) : List Nat :=
  (List.range ((d + 7) / 8)).map (fun k => k * 8)

/-- One call to `esp_lcd_panel_draw_bitmap(panel, xs, ys, xe, ye, buf)`:
the four window coordinates, in the panel's native axes, with the end
coordinates exclusive.  The C arguments are int, so the fields are Int. -/
structure DrawCall where
  xStart : Int
  yStart : Int
  xEnd : Int
  yEnd : Int
deriving DecidableEq

/-- `int y_offset = LCD_H_RES - area->y1 - n` in `flush_cb`. -/
def yOffset (a : Area) (n : Nat) : Int :=
  (LCD_H_RES : Int) - (a.y1 : Int) - (n : Int)

/-- The sequence of panel writes one rotated flush issues: one per band,
`esp_lcd_panel_draw_bitmap(panel, y_offset - rows, 0, y_offset, LCD_V_RES, line_buf)`. -/
def drawCalls (a : Area) : List DrawCall :=
  (bandStarts (a.y2 - a.y1)).map fun n =>
    { xStart := yOffset a n - (rows : Int)
      yStart := 0
      xEnd := yOffset a n
      yEnd := (LCD_V_RES : Int) }

/-- Row indices of the logical block read by the band loop: band n reads
`color_map[(n + y) * cols + x]` for y in [0, rows), i.e. logical rows
n + y. -/
def readRows (a : Area) : List Nat :=
  (bandStarts (a.y2 - a.y1)).flatMap fun n =>
    (List.range rows).map fun y => n + y

/-- Flat indices of the logical block read by the band loop, in loop
order (n outer, x middle, y inner): `color_map[(n + y) * cols + x]`. -/
def readIndices (a : Area) : List Nat :=
  (bandStarts (a.y2 - a.y1)).flatMap fun n =>
    (List.range cols).flatMap fun x =>
      (List.range rows).map fun y => (n + y) * cols + x

/-- Write order of the scratch-fill double loop in `flush_cb`
(x outer over [0, cols), y inner over [0, rows)), as the list of (x, y)
pairs. -/
def bandWrites : List (Nat × Nat) :=
  (List.range cols).flatMap fun x =>
    (List.range rows).map fun y => (x, y)

/-- Scratch-tile index written for loop indices (x, y):
`line_buf[x * rows + (rows - y - 1)]`. -/
def scratchKey (p : Nat × Nat) : Nat := p.1 * rows + (rows - 1 - p.2)

/-- Pixel stored there, read from the logical block:
`color_map[(n + y) * cols + x]`. -/
def scratchVal (pxMap : Nat → Nat) (n : Nat) (p : Nat × Nat) : Nat :=
  pxMap ((n + p.2) * cols + p.1)

/-- The scratch-fill double loop of band n: starting from the scratch
buffer contents `buf`, perform the writes
`line_buf[x * rows + (rows - y - 1)] = color_map[(n + y) * cols + x]`
in loop order. -/
def bandFill (pxMap : Nat → Nat) (n : Nat) (buf : Nat → Nat) : Nat → Nat :=
  bandWrites.foldl
    (fun b p => Function.update b (scratchKey p) (scratchVal pxMap n p)) buf

/-- Observable side effects of the firmware, in program order. -/
inductive Ev where
  /-- `ESP_LOGI(TAG, "Flushing area: ...")` at the top of `flush_cb`. -/
  | logInfo
  /-- `lv_draw_sw_rgb565_swap(color_map, count)` with its pixel count. -/
  | swapBytes (count : Nat)
  /-- `heap_caps_aligned_alloc(64, bytes, MALLOC_CAP_DMA)` for the
  scratch line buffer, with its byte size. -/
  | allocScratch (bytes : Nat)
  /-- `esp_lcd_panel_draw_bitmap(...)` with its window. -/
  | drawBitmap (c : DrawCall)
  /-- `free(line_buf)`. -/
  | freeScratch
  /-- `lv_disp_flush_ready(disp)`. -/
  | flushReady
  /-- `ESP_LOGE(TAG, ...)`. -/
  | logError
  /-- `abort()`. -/
  | abortCall
  /-- `lv_display_set_buffers(disp, buf1, buf2, buf_size, PARTIAL)`. -/
  | setBuffers
deriving DecidableEq

/-- The event trace of one call of the rotated `flush_cb` on area `a`:
log, byte swap of the area's pixel count, allocation of the
`LVGL_WIDTH * rows * sizeof(lv_color16_t)`-byte scratch buffer, one
bitmap write per band, free, flush-ready.  The source contains no check
of the allocation result: the trace is the same whether the scratch
allocation succeeded or not, which is why `allocOk` does not occur on
the right-hand side. -/
def flushTrace (_allocOk : Bool) (a : Area) : List Ev :=
  Ev.logInfo ::
  Ev.swapBytes ((a.x2 - a.x1 + 1) * (a.y2 - a.y1 + 1)) ::
  Ev.allocScratch (LVGL_WIDTH * rows * 2) ::
  ((drawCalls a).map Ev.drawBitmap ++ [Ev.freeScratch, Ev.flushReady])

/-- The pixel-buffer allocation check in `app_main`:
`if (!buf1 || !buf2) { ESP_LOGE(...); abort(); } lv_display_set_buffers(...)`.
The arguments say whether the two `heap_caps_aligned_alloc` calls
succeeded. -/
def appMainBufferSetup (buf1Ok buf2Ok : Bool) : List Ev :=
  if buf1Ok && buf2Ok then [Ev.setBuffers]
  else [Ev.logError, Ev.abortCall]

/-- Modelled from the spec: `lv_draw_sw_rgb565_swap` (the Pixel-Format
Normalizer) is an LVGL library routine not present in this repository;
per the spec it permutes the byte order of each 16-bit sample in place.
On one sample value below 2^16 that is: low byte becomes high byte and
conversely. -/
def swap16 (v : Nat) : Nat := (v % 256) * 256 + v / 256

/-- Modelled from the spec: the Normalizer applied to a whole pixel
block, one 16-bit sample per list entry. -/
def normalize (P : List Nat) : List Nat := P.map swap16

/-- Modelled from the spec: LVGL's Double-Buffer Coordinator state —
which of the two registered buffers the renderer is writing and which
the Flush Driver is transmitting (`false` names `buf1`, `true` names
`buf2`). -/
structure DBState where
  rendering : Bool
  flushing : Bool
deriving DecidableEq

/-- Modelled from the spec: on each refresh cycle the renderer is given
the buffer not currently being transmitted, and the buffers alternate —
the roles swap. -/
def nextCycle (s : DBState) : DBState :=
  { rendering := s.flushing, flushing := s.rendering }

/-- Modelled from the spec: initially the renderer owns one buffer and
the other is the (idle) transmission buffer. -/
def dbInit : DBState := { rendering := false, flushing := true }

/-- State after k refresh cycles. -/
def dbAfter (k : Nat) : DBState := Nat.iterate nextCycle k dbInit

/-- The pointer registered for a buffer index: `app_main` registers the
two distinct allocations `buf1` and `buf2`. -/
def bufPtr (b1 b2 : Nat) (i : Bool) : Nat := if i then b2 else b1

/-- An event trace with the byte-swap events removed: what a flush does
apart from the pixel-format normalization. -/
def dropSwap (t : List Ev) : List Ev :=
  t.filter fun e =>
    match e with
    | Ev.swapBytes _ => false
    | _ => true

/-! Helper lemmas about the embedded definitions. -/

/-- Arithmetic meaning of the 32-bit mask: for a value below 2^32,
anding with 0xFFFFFFF8 clears the three low bits, i.e. rounds down to a
multiple of 8. -/
theorem alignDown8_eq (x : Nat) (h : x < 2 ^ 32) : alignDown8 x = 8 * (x / 8) := by
  apply Nat.eq_of_testBit_eq
  intro i
  have hx8 : 8 * (x / 8) = x >>> 3 <<< 3 := by
    rw [Nat.shiftRight_eq_div_pow, Nat.shiftLeft_eq]
    ring
  rcases Nat.lt_or_ge i 32 with hi | hi
  · have hmask : ∀ j, j < 32 → Nat.testBit 0xFFFFFFF8 j = decide (3 ≤ j) := by decide
    rw [alignDown8, Nat.testBit_and, hmask i hi, hx8, Nat.testBit_shiftLeft,
      Nat.testBit_shiftRight]
    by_cases h3 : 3 ≤ i
    · have h33 : 3 + (i - 3) = i := by omega
      have hge : i ≥ 3 := h3
      simp [h3, hge, h33]
    · have hge : ¬ i ≥ 3 := h3
      simp [h3, hge]
  · have hlt : x < 2 ^ i :=
      lt_of_lt_of_le h (Nat.pow_le_pow_right (by norm_num) hi)
    have hlt2 : 8 * (x / 8) < 2 ^ i :=
      lt_of_le_of_lt (by omega) hlt
    rw [alignDown8, Nat.testBit_and, Nat.testBit_lt_two_pow hlt,
      Nat.testBit_lt_two_pow hlt2]
    rfl

theorem mem_bandStarts (d n : Nat) :
    n ∈ bandStarts d ↔ n % 8 = 0 ∧ n < d := by
  simp only [bandStarts, List.mem_map, List.mem_range]
  constructor
  · rintro ⟨k, hk, rfl⟩
    omega
  · rintro ⟨h8, hd⟩
    exact ⟨n / 8, by omega, by omega⟩

theorem mem_bandWrites (x y : Nat) :
    (x, y) ∈ bandWrites ↔ x < cols ∧ y < rows := by
  simp [bandWrites, List.mem_flatMap, List.mem_map, List.mem_range]

theorem foldl_update_notMem {α β : Type} (l : List β) (key : β → Nat) (val : β → α)
    (buf : Nat → α) (k : Nat) (hk : ∀ p ∈ l, key p ≠ k) :
    (l.foldl (fun b q => Function.update b (key q) (val q)) buf) k = buf k := by
  induction l generalizing buf with
  | nil => rfl
  | cons hd tl ih =>
    rw [List.foldl_cons, ih _ (fun p hp => hk p (List.mem_cons_of_mem _ hp))]
    exact Function.update_noteq (fun h => hk hd (List.mem_cons_self _ _) h.symm) _ _

theorem foldl_update_eq {α β : Type} (l : List β) (key : β → Nat) (val : β → α)
    (buf : Nat → α) (k : Nat) (v : α)
    (hex : ∃ q ∈ l, key q = k)
    (hall : ∀ q ∈ l, key q = k → val q = v) :
    (l.foldl (fun b q => Function.update b (key q) (val q)) buf) k = v := by
  induction l generalizing buf with
  | nil => simp at hex
  | cons hd tl ih =>
    rw [List.foldl_cons]
    by_cases h : ∃ q ∈ tl, key q = k
    · exact ih _ h (fun q hq => hall q (List.mem_cons_of_mem _ hq))
    · have hhd : key hd = k := by
        obtain ⟨q, hq, hqk⟩ := hex
        rcases List.mem_cons.mp hq with rfl | hq'
        · exact hqk
        · exact absurd ⟨q, hq', hqk⟩ h
      rw [foldl_update_notMem tl key val _ k (fun p hp hpk => h ⟨p, hp, hpk⟩), hhd,
        Function.update_same]
      exact hall hd (List.mem_cons_self _ _) hhd

theorem dropSwap_append_draws (l : List DrawCall) (rest : List Ev) :
    dropSwap (l.map Ev.drawBitmap ++ rest) = l.map Ev.drawBitmap ++ dropSwap rest := by
  induction l with
  | nil => rfl
  | cons c l ih =>
    simp only [List.map_cons, List.cons_append, dropSwap, List.filter_cons] at ih ⊢
    exact congrArg (Ev.drawBitmap c :: ·) ih

theorem swap16_swap16 (v : Nat) (h : v < 2 ^ 16) : swap16 (swap16 v) = v := by
  simp only [swap16]
  omega

theorem dbAfter_succ (k : Nat) : dbAfter (k + 1) = nextCycle (dbAfter k) := by
  simp only [dbAfter, Function.iterate_succ_apply']

theorem dbAfter_ne (k : Nat) : (dbAfter k).rendering ≠ (dbAfter k).flushing := by
  induction k with
  | zero => simp [dbAfter, dbInit]
  | succ k ih =>
    rw [dbAfter_succ, nextCycle]
    exact Ne.symm ih

theorem map_swap16_swap16 (P : List Nat) (h : ∀ v ∈ P, v < 2 ^ 16) :
    P.map (fun v => swap16 (swap16 v)) = P := by
  induction P with
  | nil => rfl
  | cons v P ih =>
    rw [List.map_cons, swap16_swap16 v (h v (List.mem_cons_self _ _)),
      ih (fun w hw => h w (List.mem_cons_of_mem _ hw))]

theorem dropSwap_cons_logInfo (t : List Ev) :
    dropSwap (Ev.logInfo :: t) = Ev.logInfo :: dropSwap t := rfl

theorem dropSwap_cons_swap (c : Nat) (t : List Ev) :
    dropSwap (Ev.swapBytes c :: t) = dropSwap t := rfl

theorem dropSwap_cons_alloc (b : Nat) (t : List Ev) :
    dropSwap (Ev.allocScratch b :: t) = Ev.allocScratch b :: dropSwap t := rfl

/-! Claim theorems. -/

/-- C1: in the rotated Scanline Remapper, for every band starting at row
offset n, every column x below the remapped width and every row offset
y below R = 8, the pixel the band copy leaves in the scratch tile at
index x*R + (R-1-y) is the logical pixel at index (n+y)*width + x of
the input block: the copy transposes the axes and reverses the row
order within the band. -/
theorem scanline_remap_rotates (pxMap buf : Nat → Nat) (n x y : Nat)
    (hx : x < cols) (hy : y < rows) :
    bandFill pxMap n buf (x * rows + (rows - 1 - y)) = pxMap ((n + y) * cols + x) := by
  apply foldl_update_eq bandWrites scratchKey (scratchVal pxMap n) buf
  · exact ⟨(x, y), (mem_bandWrites x y).mpr ⟨hx, hy⟩, rfl⟩
  · rintro ⟨x', y'⟩ hq hkey
    obtain ⟨hx', hy'⟩ := (mem_bandWrites x' y').mp hq
    have hy8 : y < 8 := hy
    have hy8' : y' < 8 := hy'
    have hkey8 : x' * 8 + (8 - 1 - y') = x * 8 + (8 - 1 - y) := hkey
    have hxx : x' = x ∧ y' = y := by omega
    rw [hxx.1, hxx.2]
    rfl

/-- C1 witness: instance at x = 3, y = 2, n = 0, with the identity pixel
map: the scratch tile holds pixel 2 * 456 + 3 at index 3 * 8 + 5. -/
theorem scanline_remap_rotates_witness :
    3 < cols ∧ 2 < rows ∧
    bandFill (fun i => i) 0 (fun _ => 0) (3 * rows + (rows - 1 - 2)) =
      (0 + 2) * cols + 3 :=
  ⟨by decide, by decide,
    scanline_remap_rotates (fun i => i) (fun _ => 0) 0 3 2 (by decide) (by decide)⟩

/-- C2: for every band start n of a region, the rotated flush issues
exactly one bitmap write whose window is
[native_offset - R, native_offset) on the rotated (native x) axis, with
native_offset = panel_height - region_y1 - n (panel height 280, the
source constant LCD_H_RES), and the full native height axis
[0, LCD_V_RES) on the other. -/
theorem one_write_per_band (a : Area) (n : Nat)
    (hn : n ∈ bandStarts (a.y2 - a.y1)) :
    (drawCalls a).count
      { xStart := (LCD_H_RES : Int) - (a.y1 : Int) - (n : Int) - (rows : Int)
        yStart := 0
        xEnd := (LCD_H_RES : Int) - (a.y1 : Int) - (n : Int)
        yEnd := (LCD_V_RES : Int) } = 1 := by
  have hinj : Function.Injective (fun n : Nat =>
      ({ xStart := yOffset a n - (rows : Int), yStart := 0,
         xEnd := yOffset a n, yEnd := (LCD_V_RES : Int) } : DrawCall)) := by
    intro m m' hmm
    have h1 : yOffset a m = yOffset a m' := congrArg DrawCall.xEnd hmm
    simp only [yOffset, sub_right_inj] at h1
    exact_mod_cast h1
  have hcount : (bandStarts (a.y2 - a.y1)).count n = 1 := by
    have hnd : (bandStarts (a.y2 - a.y1)).Nodup :=
      (List.nodup_range _).map (fun k k' h => by omega)
    have hle := List.nodup_iff_count_le_one.mp hnd n
    have hge := List.count_pos_iff.mpr hn
    omega
  rw [drawCalls, ← hcount]
  exact List.count_map_of_injective _ _ hinj n

/-- C2 witness: on the quantized area (8, 0, 55, 15), band n = 8 gets
exactly one write with window [264, 272) by [0, 456). -/
theorem one_write_per_band_witness :
    8 ∈ bandStarts ((⟨8, 0, 55, 15⟩ : Area).y2 - (⟨8, 0, 55, 15⟩ : Area).y1) ∧
    (drawCalls ⟨8, 0, 55, 15⟩).count
      { xStart := (LCD_H_RES : Int) - ((⟨8, 0, 55, 15⟩ : Area).y1 : Int) - (8 : Nat) - (rows : Int)
        yStart := 0
        xEnd := (LCD_H_RES : Int) - ((⟨8, 0, 55, 15⟩ : Area).y1 : Int) - (8 : Nat)
        yEnd := (LCD_V_RES : Int) } = 1 :=
  ⟨by decide, one_write_per_band ⟨8, 0, 55, 15⟩ 8 (by decide)⟩

/-- C3: the rounder rounds x1 and y1 down to the nearest multiple of 8,
sets x2 to (x2 and-not 7) + 7 and y2 likewise, the requested rectangle
is contained in the quantized one, and each far edge grows by at most 7
pixels. -/
theorem quantize_bounds (a : Area) (h1 : a.x1 < 2 ^ 32) (h2 : a.y1 < 2 ^ 32)
    (h3 : a.x2 < 2 ^ 32) (h4 : a.y2 < 2 ^ 32) :
    ((quantizeArea a).x1 = 8 * (a.x1 / 8) ∧ (quantizeArea a).y1 = 8 * (a.y1 / 8) ∧
     (quantizeArea a).x2 = 8 * (a.x2 / 8) + 7 ∧ (quantizeArea a).y2 = 8 * (a.y2 / 8) + 7) ∧
    ((quantizeArea a).x1 % 8 = 0 ∧ (quantizeArea a).y1 % 8 = 0) ∧
    ((quantizeArea a).x1 ≤ a.x1 ∧ (quantizeArea a).y1 ≤ a.y1 ∧
     a.x2 ≤ (quantizeArea a).x2 ∧ a.y2 ≤ (quantizeArea a).y2) ∧
    ((quantizeArea a).x2 ≤ a.x2 + 7 ∧ (quantizeArea a).y2 ≤ a.y2 + 7) := by
  have e1 := alignDown8_eq _ h1
  have e2 := alignDown8_eq _ h2
  have e3 := alignDown8_eq _ h3
  have e4 := alignDown8_eq _ h4
  simp only [quantizeArea]
  omega

/-- C3 witness: the requested area (10, 3, 50, 9) satisfies the range
hypotheses and quantizes as the theorem states. -/
theorem quantize_bounds_witness :
    ((10 : Nat) < 2 ^ 32 ∧ (3 : Nat) < 2 ^ 32 ∧ (50 : Nat) < 2 ^ 32 ∧ (9 : Nat) < 2 ^ 32) ∧
    (quantizeArea ⟨10, 3, 50, 9⟩).x1 ≤ (⟨10, 3, 50, 9⟩ : Area).x1 :=
  ⟨⟨by decide, by decide, by decide, by decide⟩,
    ((quantize_bounds ⟨10, 3, 50, 9⟩ (by decide) (by decide) (by decide)
      (by decide)).2.2.1).1⟩

/-- C4 counterexample: the claim fails on the region (0, 0, 7, 11),
whose height 12 is not a multiple of 8: the band loop still reads full
8-row bands, so it reads logical row 15, past the last region row 11. -/
theorem short_band_read_overrun :
    (((⟨0, 0, 7, 11⟩ : Area).y2 - (⟨0, 0, 7, 11⟩ : Area).y1 + 1) % 8 ≠ 0) ∧
    ¬ (∀ r ∈ readRows ⟨0, 0, 7, 11⟩,
        r ≤ (⟨0, 0, 7, 11⟩ : Area).y2 - (⟨0, 0, 7, 11⟩ : Area).y1) := by decide

/-- C4 amended: the flush never shortens a band; instead, whenever the
region height is a multiple of R = 8 — which the rounder guarantees for
every region the flush receives — no logical row read by the band loop
lies past the last region row. -/
theorem aligned_height_reads_in_bounds (a : Area)
    (h : (a.y2 - a.y1 + 1) % 8 = 0) :
    ∀ r ∈ readRows a, r ≤ a.y2 - a.y1 := by
  intro r hr
  simp only [readRows, List.mem_flatMap, List.mem_map, List.mem_range] at hr
  obtain ⟨n, hn, y, hy, rfl⟩ := hr
  rw [mem_bandStarts] at hn
  have hy8 : y < 8 := hy
  omega

/-- C4 amended witness: the quantized region (0, 0, 7, 15) has height
16, a multiple of 8, and all its band reads stay at or below row 15. -/
theorem aligned_height_reads_in_bounds_witness :
    (((⟨0, 0, 7, 15⟩ : Area).y2 - (⟨0, 0, 7, 15⟩ : Area).y1 + 1) % 8 = 0) ∧
    ∀ r ∈ readRows ⟨0, 0, 7, 15⟩,
      r ≤ (⟨0, 0, 7, 15⟩ : Area).y2 - (⟨0, 0, 7, 15⟩ : Area).y1 :=
  ⟨by decide, aligned_height_reads_in_bounds ⟨0, 0, 7, 15⟩ (by decide)⟩

/-- C5 counterexample: the claim that no flush invocation allocates or
frees the scratch tile fails on the quantized area (8, 0, 55, 15): that
flush's own trace contains the scratch allocation and the free. -/
theorem flush_allocates_scratch :
    Ev.allocScratch (LVGL_WIDTH * rows * 2) ∈ flushTrace true ⟨8, 0, 55, 15⟩ ∧
    Ev.freeScratch ∈ flushTrace true ⟨8, 0, 55, 15⟩ := by decide

/-- C5 amended: the scratch tile is not a startup allocation; every
flush invocation allocates it exactly once on entry and frees it
exactly once before returning. -/
theorem scratch_alloc_free_per_flush (allocOk : Bool) (a : Area) :
    (flushTrace allocOk a).count (Ev.allocScratch (LVGL_WIDTH * rows * 2)) = 1 ∧
    (flushTrace allocOk a).count Ev.freeScratch = 1 := by
  have hz1 : ((drawCalls a).map Ev.drawBitmap).count
      (Ev.allocScratch (LVGL_WIDTH * rows * 2)) = 0 := by
    rw [List.count_eq_zero]
    intro hmem
    obtain ⟨c, -, hc⟩ := List.mem_map.mp hmem
    cases hc
  have hz2 : ((drawCalls a).map Ev.drawBitmap).count Ev.freeScratch = 0 := by
    rw [List.count_eq_zero]
    intro hmem
    obtain ⟨c, -, hc⟩ := List.mem_map.mp hmem
    cases hc
  constructor
  · simp [flushTrace, List.count_cons, List.count_append, hz1]
  · simp [flushTrace, List.count_cons, List.count_append, hz2]

/-- C6: allocation-failure behaviour.  The startup pixel-buffer check in
`app_main` does log and abort whenever either allocation fails; but the
scratch allocation inside `flush_cb` is never checked: on the quantized
area (8, 0, 55, 15) the flush behaves identically whether the
allocation failed or succeeded — it aborts nowhere, logs no error, and
still issues the bitmap writes (through the null scratch pointer). -/
theorem alloc_failure_behaviour :
    (appMainBufferSetup false true = [Ev.logError, Ev.abortCall] ∧
     appMainBufferSetup true false = [Ev.logError, Ev.abortCall] ∧
     appMainBufferSetup false false = [Ev.logError, Ev.abortCall] ∧
     appMainBufferSetup true true = [Ev.setBuffers]) ∧
    (flushTrace false ⟨8, 0, 55, 15⟩ = flushTrace true ⟨8, 0, 55, 15⟩ ∧
     Ev.abortCall ∉ flushTrace false ⟨8, 0, 55, 15⟩ ∧
     Ev.logError ∉ flushTrace false ⟨8, 0, 55, 15⟩ ∧
     Ev.drawBitmap ⟨264, 0, 272, 456⟩ ∈ flushTrace false ⟨8, 0, 55, 15⟩) := by decide

/-- C7: end to end, the requested region (10, 3, 50, 9) quantizes to
exactly (8, 0, 55, 15), and the rotated flush of that region issues
exactly ceil((15-0)/8) = 2 bitmap writes, each spanning the full native
height axis [0, 456). -/
theorem end_to_end_scenario :
    quantizeArea ⟨10, 3, 50, 9⟩ = ⟨8, 0, 55, 15⟩ ∧
    (drawCalls ⟨8, 0, 55, 15⟩).length = 2 ∧
    (15 - 0 + 7) / 8 = 2 ∧
    ∀ c ∈ drawCalls ⟨8, 0, 55, 15⟩,
      c.yStart = 0 ∧ c.yEnd = (LCD_V_RES : Int) := by decide

/-- C8: the Pixel-Format Normalizer's byte swap is self-inverse on every
block of 16-bit samples, and a single application only swaps the two
bytes of each sample in place: the block keeps its length and its i-th
sample becomes the byte-swap of the old i-th sample, nothing outside
the block is touched. -/
theorem normalize_involutive (P : List Nat) (h : ∀ v ∈ P, v < 2 ^ 16) :
    normalize (normalize P) = P ∧
    (normalize P).length = P.length ∧
    ∀ i : Nat, (normalize P)[i]? = Option.map swap16 P[i]? := by
  refine ⟨?_, by simp [normalize], fun i => by simp [normalize]⟩
  rw [normalize, normalize, List.map_map]
  have hc : swap16 ∘ swap16 = fun v => swap16 (swap16 v) := rfl
  rw [hc]
  exact map_swap16_swap16 P h

/-- C8 witness: the one-sample block [0x1234] is 16-bit and double
swapping restores it. -/
theorem normalize_involutive_witness :
    (∀ v ∈ [(4660 : Nat)], v < 2 ^ 16) ∧
    normalize (normalize [4660]) = [4660] :=
  ⟨by decide, (normalize_involutive [4660] (by decide)).1⟩

/-- C9: with the two distinct startup pixel buffers, after any number of
refresh cycles the buffer the Flush Driver transmits is never the
buffer the renderer is writing. -/
theorem double_buffer_no_alias (b1 b2 : Nat) (hne : b1 ≠ b2) (k : Nat) :
    bufPtr b1 b2 (dbAfter k).flushing ≠ bufPtr b1 b2 (dbAfter k).rendering := by
  have h := dbAfter_ne k
  cases hf : (dbAfter k).flushing <;> cases hr : (dbAfter k).rendering <;>
    rw [hf, hr] at h
  · exact absurd rfl h
  · simpa [bufPtr] using hne
  · simpa [bufPtr] using hne.symm
  · exact absurd rfl h

/-- C9 witness: with buffers at 0 and 1, after two cycles the
transmitted and rendered pointers differ. -/
theorem double_buffer_no_alias_witness :
    (0 : Nat) ≠ 1 ∧
    bufPtr 0 1 (dbAfter 2).flushing ≠ bufPtr 0 1 (dbAfter 2).rendering :=
  ⟨by decide, double_buffer_no_alias 0 1 (by decide) 2⟩

/-- C10: the rotated flush treats every pixel block as a
full-logical-width block of stride 456: the indices it reads and all
bitmap-write windows depend only on the area's y1 and y2, never on x1
or x2 — of the whole flush trace, only the byte-swap pixel count sees
the x extent. -/
theorem flush_ignores_x_extent (a a' : Area) (hy1 : a.y1 = a'.y1) (hy2 : a.y2 = a'.y2) :
    readIndices a = readIndices a' ∧
    drawCalls a = drawCalls a' ∧
    ∀ ok : Bool, dropSwap (flushTrace ok a) = dropSwap (flushTrace ok a') := by
  have hdc : drawCalls a = drawCalls a' := by
    simp only [drawCalls, yOffset, hy1, hy2]
  have key : ∀ (b : Bool) (aa : Area), dropSwap (flushTrace b aa) =
      Ev.logInfo :: Ev.allocScratch (LVGL_WIDTH * rows * 2) ::
        ((drawCalls aa).map Ev.drawBitmap ++ [Ev.freeScratch, Ev.flushReady]) := by
    intro b aa
    rw [flushTrace, dropSwap_cons_logInfo, dropSwap_cons_swap, dropSwap_cons_alloc,
      dropSwap_append_draws]
    rfl
  refine ⟨by simp only [readIndices, hy1, hy2], hdc, fun ok => ?_⟩
  rw [key, key, hdc]

/-- C10 witness: the areas (0, 0, 7, 15) and (8, 0, 455, 15) share their
y extent and produce the same reads and the same writes. -/
theorem flush_ignores_x_extent_witness :
    (⟨0, 0, 7, 15⟩ : Area).y1 = (⟨8, 0, 455, 15⟩ : Area).y1 ∧
    (⟨0, 0, 7, 15⟩ : Area).y2 = (⟨8, 0, 455, 15⟩ : Area).y2 ∧
    drawCalls ⟨0, 0, 7, 15⟩ = drawCalls ⟨8, 0, 455, 15⟩ :=
  ⟨by decide, by decide,
    (flush_ignores_x_extent ⟨0, 0, 7, 15⟩ ⟨8, 0, 455, 15⟩ (by decide) (by decide)).2.1⟩

end CanISwim
